import Mathlib

/-!
# Teleport peer runtime (`teleport/peer.go`): a shallow embedding

The peer is modelled by explicit state passing.  Sessions live in a heap and are
referred to by their index, the way the Go code refers to them by pointer.
Network input (dial results, accept results), the plugin hooks and the result of
closing a session are inputs of the model; every function below follows the
control flow of the Go function of the same name.
-/

namespace Teleport

/-! ## Errors -/

/-- Structured error `*Rerror`: code, message and detail. -/
structure Rerror where
  Code : Int
  Message : String
  Detail : String
deriving DecidableEq, Repr

/-- Values of the Go interface type `error` that occur in `peer.go`. -/
inductive GoError where
  /-- Plain error made by `errors.New`, `errors.Errorf` or `fmt.Errorf`. -/
  | msg (text : String)
  /-- Error implementing `net.Error`, with the answer of its `Temporary()`. -/
  | net (text : String) (temporary : Bool)
  /-- Structured error seen through the `error` interface. -/
  | rerr (r : Rerror)
  /-- The one error object held by the package variable `ErrListenClosed`; an
  error made elsewhere is never this object, whatever its text. -/
  | errListenClosed
deriving DecidableEq, Repr

/-- Text of `err.Error()`. -/
def GoError.Error : GoError → String
  | .msg t => t
  | .net t _ => t
  | .rerr r => r.Message ++ r.Detail
  | .errListenClosed => "listener is closed"

/-- Modelled from the spec: `(*Rerror).ToError` (rerror.go is not part of the
sources at hand); the structured error is handed on verbatim, seen as an `error`. -/
def Rerror.ToError (r : Rerror) : GoError := GoError.rerr r

/-- Go's test `e.(net.Error)` followed by `ne.Temporary()`. -/
def GoError.isTemporaryNetError : GoError → Bool
  | .net _ t => t
  | _ => false

/-! ## Connections and sessions -/

/-- A `net.Conn` value.  `ref` is the identity of the connection object; the
other fields are what `peer.go` asks of a connection. -/
structure Conn where
  ref : Nat
  /-- Result of `LocalAddr().Network()`. -/
  network : String
  /-- Result of `LocalAddr().String()`. -/
  localAddr : String
  /-- Result of `RemoteAddr().String()`. -/
  remoteAddr : String
  /-- Whether the dynamic type is `*tls.Conn`. -/
  isTls : Bool
  /-- Result of `Handshake()` when the connection is a `*tls.Conn`. -/
  handshakeErr : Option String
deriving DecidableEq, Repr, Inhabited

/-- The wrapper `tls.Client(conn, cfg)`: the connection becomes a `*tls.Conn`. -/
def tlsClient (c : Conn) : Conn := { c with isTls := true }

/-- Session status flag. -/
inductive Status where
  | statusOk
  | statusClosed
deriving DecidableEq, Repr, Inhabited

/-- The fields of `session` that `peer.go` reads or writes. -/
structure session where
  /-- The connection `sess.conn` (the socket is bound to the same connection). -/
  conn : Conn
  /-- The socket id, `sess.Id()`. -/
  id : String
  status : Status
  /-- Whether `redialForClientLocked` is set. -/
  hasRedial : Bool
deriving DecidableEq, Repr, Inhabited

/-- The method `sess.LocalIp()`: local address of the current connection. -/
def session.LocalIp (s : session) : String := s.conn.localAddr

/-- The method `sess.Id()`. -/
def session.Id (s : session) : String := s.id

/-- The call `sess.socket.SetId(id)`. -/
def session.SetId (s : session) (id : String) : session := { s with id := id }

/-- Reference to a session: its index in the heap. -/
abbrev SessRef := Nat

/-! ## The peer -/

/-- State of a `peer` together with the sessions it created and a record of the
effects the claims talk about. -/
structure peer where
  /-- Every session created so far; a `*session` is an index into this list. -/
  heap : List session
  /-- The hub `sessHub`: session id to session. -/
  sessHub : List (String × SessRef)
  /-- Whether `closeCh` has been closed. -/
  closeCh : Bool
  /-- Whether the peer is in the process-wide registry (`addPeer`/`deletePeer`). -/
  registered : Bool
  /-- Whether `tlsConfig != nil`. -/
  tlsConfig : Bool
  /-- Field `redialTimes` (int32). -/
  redialTimes : Int
  /-- Field `listenAddr`. -/
  listenAddr : String
  /-- Sessions whose `startReadAndHandle` has been started, in order. -/
  readLoops : List SessRef
  /-- Sessions whose `Close` has been invoked, in order. -/
  closeLog : List SessRef
  /-- Number of calls of a dial function so far. -/
  dialCalls : Nat
deriving DecidableEq, Repr

/-- Dereference a session pointer. -/
def peer.sess (p : peer) (r : SessRef) : session := p.heap.getD r default

/-- Write through a session pointer. -/
def peer.setSess (p : peer) (r : SessRef) (s : session) : peer :=
  { p with heap := p.heap.set r s }

/-- What a plugin hook (`PostDial`, `PostAccept`) does: it may veto with a
structured error, and it may give the session another id. -/
structure HookResult where
  veto : Option Rerror
  newId : Option String
deriving DecidableEq, Repr

/-- The collaborators of the peer whose code is outside `peer.go`. -/
structure Env where
  /-- The package variable `rerrDialFailed`. -/
  rerrDialFailed : Rerror
  /-- The hook `pluginContainer.PostDial`. -/
  PostDial : session → HookResult
  /-- The hook `pluginContainer.PostAccept`. -/
  PostAccept : session → HookResult
  /-- The error returned by `Close` of each session. -/
  sessCloseErr : SessRef → Option GoError
  /-- The function `errors.Merge(err, e)` of goutil, on two possibly nil errors. -/
  Merge : Option GoError → Option GoError → Option GoError
  /-- The text of `goutil.PanicTrace(2)`. -/
  PanicTrace : String

/-- A dial function: the result of its n-th call overall. -/
abbrev DialFunc := Nat → Except GoError Conn

/-- Modelled from the spec: `newSession` (session.go is not part of the sources
at hand).  A fresh session owning `conn`, its id defaulting to the local endpoint
address, status ok, no redial callback. -/
def newSession (p : peer) (conn : Conn) : peer × SessRef :=
  ({ p with heap := p.heap ++ [{ conn := conn, id := conn.localAddr,
                                 status := Status.statusOk, hasRedial := false }] },
   p.heap.length)

/-- Modelled from the spec: `session.Close` (session.go is not part of the sources
at hand).  The session becomes closed and is removed from the hub; the call is
recorded and yields the close error of that session. -/
def sessionClose (env : Env) (p : peer) (r : SessRef) : peer × Option GoError :=
  ({ p with heap := p.heap.set r { p.sess r with status := Status.statusClosed },
            sessHub := p.sessHub.filter (fun e => e.2 != r),
            closeLog := p.closeLog ++ [r] },
   env.sessCloseErr r)

/-- Modelled from the spec: `SessionHub.Set` (session.go is not part of the sources
at hand).  The session is stored under its id, replacing an entry of that id. -/
def hubSet (p : peer) (r : SessRef) : peer :=
  { p with sessHub := p.sessHub.filter (fun e => e.1 != (p.sess r).Id) ++ [((p.sess r).Id, r)] }

/-- Run a plugin hook on a session: an id chosen by the hook is installed, and
the veto (if any) is returned. -/
def runHook (hook : session → HookResult) (p : peer) (r : SessRef) : peer × Option Rerror :=
  let res := hook (p.sess r)
  let p1 := match res.newId with
    | some i => p.setSess r ((p.sess r).SetId i)
    | none => p
  (p1, res.veto)

/-- The go statement `AnywayGo(sess.startReadAndHandle)`: the read loop of the
session is started. -/
def startReadLoop (p : peer) (r : SessRef) : peer :=
  { p with readLoops := p.readLoops ++ [r] }

/-- Every entry of the hub refers to a session this peer has created. -/
def hubWf (p : peer) : Prop := ∀ e ∈ p.sessHub, e.2 < p.heap.length

instance (p : peer) : Decidable (hubWf p) := by
  unfold hubWf
  infer_instance

/-! ## Dial and redial -/

/-- Lines 269-277 of `renewSessionForClient`: the connection swap and the choice
of the id that `SetId` installs. -/
def renewSwap (s : session) (conn : Conn) : session :=
  let oldIp := s.LocalIp
  let oldId := s.Id
  let s1 := { s with conn := conn }
  if oldIp == oldId then s1.SetId s1.LocalIp else s1.SetId oldId

/-- The method `peer.renewSessionForClient`; the result is the returned `error`. -/
def renewSessionForClient (env : Env) (p : peer) (sess : SessRef) (dialFunc : DialFunc) :
    peer × Option GoError :=
  let p0 := { p with dialCalls := p.dialCalls + 1 }
  match dialFunc p.dialCalls with
  | .error dialErr => (p0, some dialErr)
  | .ok c =>
    let conn := if p0.tlsConfig then tlsClient c else c
    let p1 := p0.setSess sess (renewSwap (p0.sess sess) conn)
    match runHook env.PostDial p1 sess with
    | (p2, some rerr) => ((sessionClose env p2 sess).1, some rerr.ToError)
    | (p2, none) =>
      let p3 := p2.setSess sess { p2.sess sess with status := Status.statusOk }
      let p4 := startReadLoop p3 sess
      (hubSet p4 sess, none)

/-- The loop `for i := p.redialTimes; i > 0; i--` of the redial callback and the
`return false` after it: `i` iterations are left.  The log call `Errorf` before
the `return false` leaves no trace in the state. -/
def redialLoop (env : Env) (sess : SessRef) (dialFunc : DialFunc) : Nat → peer → peer × Bool
  | 0, p => (p, false)
  | i + 1, p =>
    match renewSessionForClient env p sess dialFunc with
    | (p1, none) => (p1, true)
    | (p1, some _) => redialLoop env sess dialFunc i p1

/-- The closure `sess.redialForClientLocked` built by `newSessionForClient`. -/
def redialForClientLocked (env : Env) (p : peer) (sess : SessRef) (dialFunc : DialFunc)
    (oldConn : Conn) : peer × Bool :=
  if oldConn != (p.sess sess).conn then (p, true)
  else redialLoop env sess dialFunc p.redialTimes.toNat p

/-- The session that `newSessionForClient` has built when it calls the hook
`PostDial`, for a dial that returned `c`. -/
def dialedSession (p : peer) (c : Conn) : session :=
  let conn := if p.tlsConfig then tlsClient c else c
  { conn := conn, id := conn.localAddr, status := Status.statusOk,
    hasRedial := decide (0 < p.redialTimes) }

/-- The session that `ServeConn` and the accept task of `Listen` have built when
they call the hook `PostAccept`. -/
def acceptedSession (conn : Conn) : session :=
  { conn := conn, id := conn.localAddr, status := Status.statusOk, hasRedial := false }

/-- The peer after the first `j` renewal attempts of a redial, taken one after
the other. -/
def afterAttempts (env : Env) (sess : SessRef) (dialFunc : DialFunc) : Nat → peer → peer
  | 0, p => p
  | j + 1, p => afterAttempts env sess dialFunc j (renewSessionForClient env p sess dialFunc).1

/-- The error returned by renewal attempt number `j + 1` of a redial that starts
in `p` (nil when `none`). -/
def attemptErr (env : Env) (sess : SessRef) (dialFunc : DialFunc) (j : Nat) (p : peer) :
    Option GoError :=
  (renewSessionForClient env (afterAttempts env sess dialFunc j p) sess dialFunc).2

/-- The method `peer.newSessionForClient`, shared by `Dial` and `DialContext`. -/
def newSessionForClient (env : Env) (p : peer) (dialFunc : DialFunc) :
    peer × Option SessRef × Option Rerror :=
  let p0 := { p with dialCalls := p.dialCalls + 1 }
  match dialFunc p.dialCalls with
  | .error dialErr => (p0, none, some { env.rerrDialFailed with Detail := dialErr.Error })
  | .ok c =>
    let conn := if p0.tlsConfig then tlsClient c else c
    let (p1, sess) := newSession p0 conn
    let p2 := if p1.redialTimes > 0 then p1.setSess sess { p1.sess sess with hasRedial := true }
              else p1
    let p3 := p2.setSess sess ((p2.sess sess).SetId (p2.sess sess).LocalIp)
    match runHook env.PostDial p3 sess with
    | (p4, some rerr) => ((sessionClose env p4 sess).1, none, some rerr)
    | (p4, none) =>
      let p5 := startReadLoop p4 sess
      (hubSet p5 sess, some sess, none)

/-- A value of the interface type `Session` whose dynamic type, if any, is
`*session`.  `Session.nil` is the nil interface value; `Session.ptr s` holds a
`*session`, the nil pointer when `s` is `none`.  Go's `sess == nil` is true of
`Session.nil` only. -/
inductive Session where
  | nil
  | ptr (s : Option SessRef)
deriving DecidableEq, Repr

/-- The method `peer.Dial` (lines 198-202).  `dialTimeout` stands for the call
`net.DialTimeout(p.network, addr, p.defaultDialTimeout)`.  The `*session` that
`newSessionForClient` returns is converted to the result type `Session`. -/
def Dial (env : Env) (p : peer) (dialTimeout : DialFunc) : peer × Session × Option Rerror :=
  match newSessionForClient env p dialTimeout with
  | (p1, sess, rerr) => (p1, Session.ptr sess, rerr)

/-- The method `peer.DialContext` (lines 206-211).  `dialContext` stands for the
call `d.DialContext(ctx, p.network, addr)`.  The `*session` that
`newSessionForClient` returns is converted to the result type `Session`. -/
def DialContext (env : Env) (p : peer) (dialContext : DialFunc) :
    peer × Session × Option Rerror :=
  match newSessionForClient env p dialContext with
  | (p1, sess, rerr) => (p1, Session.ptr sess, rerr)

/-! ## Listen and ServeConn -/

/-- The package variable `ErrListenClosed`, set once by
`errors.New("listener is closed")`. -/
def ErrListenClosed : GoError := GoError.errListenClosed

/-- A `time.Duration` is an int64 count of nanoseconds: reduce into that range. -/
def wrapInt64 (x : Int) : Int := (x + 2 ^ 63) % 2 ^ 64 - 2 ^ 63

/-- The constant `time.Millisecond`, in nanoseconds. -/
def Millisecond : Int := 1000000

/-- The constant `time.Second`, in nanoseconds. -/
def Second : Int := 1000000000

/-- One turn of the accept loop as seen from outside: what `lis.Accept()` returns
and whether `closeCh` is closed when the `select` runs. -/
structure AcceptEvent where
  result : Except GoError Conn
  closed : Bool

/-- Local state of the accept loop and a record of its effects. -/
structure ListenState where
  /-- The variable `tempDelay`. -/
  tempDelay : Int
  /-- Arguments of the calls of `time.Sleep`, in order. -/
  sleeps : List Int
  /-- Connections handed to the per-connection task, in order. -/
  spawned : List Conn
deriving DecidableEq, Repr

/-- How `Listen` ends. -/
inductive ListenOutcome where
  /-- The call `Fatalf` ended the process. -/
  | fatal (text : String)
  /-- `Listen` returned this error. -/
  | returned (e : GoError)
  /-- `Listen` has not returned: it waits in `Accept` for the next event. -/
  | accepting
deriving DecidableEq, Repr

/-- Lines 323-330 of `Listen`: the new value of `tempDelay` on a temporary error. -/
def nextTempDelay (tempDelay : Int) : Int :=
  let d := if tempDelay == 0 then wrapInt64 (5 * Millisecond) else wrapInt64 (tempDelay * 2)
  if d > wrapInt64 (1 * Second) then wrapInt64 (1 * Second) else d

/-- The `for` loop of `Listen` (lines 314-362), run on the accept events given. -/
def listenLoop : List AcceptEvent → ListenState → ListenState × ListenOutcome
  | [], st => (st, ListenOutcome.accepting)
  | ev :: rest, st =>
    match ev.result with
    | .error e =>
      if ev.closed then (st, ListenOutcome.returned ErrListenClosed)
      else if e.isTemporaryNetError then
        let d := nextTempDelay st.tempDelay
        listenLoop rest { st with tempDelay := d, sleeps := st.sleeps ++ [d] }
      else (st, ListenOutcome.returned e)
    | .ok conn =>
      listenLoop rest { st with tempDelay := 0, spawned := st.spawned ++ [conn] }

/-- The method `peer.Listen`; `lis` is the result of `NewInheritListener`. -/
def Listen (p : peer) (lis : Except GoError Unit) (events : List AcceptEvent) :
    ListenState × ListenOutcome :=
  let st0 : ListenState := { tempDelay := 0, sleeps := [], spawned := [] }
  if p.listenAddr.length == 0 then (st0, ListenOutcome.fatal "listenAddress can not be empty")
  else
    match lis with
    | .error err => (st0, ListenOutcome.fatal err.Error)
    | .ok _ => listenLoop events st0

/-- An accept event on which the loop retries: a temporary network error while the
shutdown signal has not been raised. -/
def AcceptEvent.isRetry (ev : AcceptEvent) : Bool :=
  match ev.result with
  | .error e => !ev.closed && e.isTemporaryNetError
  | .ok _ => false

/-- An accept event after which the loop goes on to the next `Accept`: a
successful accept, or an error on which it retries. -/
def AcceptEvent.keepsListening (ev : AcceptEvent) : Bool :=
  match ev.result with
  | .error _ => ev.isRetry
  | .ok _ => true

/-- The delay the specification gives for the k-th temporary accept error in a
row: 5ms doubled k-1 times, at most 1s (and 0 before the first). -/
def backoffDelay (k : Nat) : Int :=
  if k = 0 then 0 else min (5 * Millisecond * 2 ^ (k - 1)) (1 * Second)

/-- Whether a `*tls.Conn` fails its handshake (lines 341-352 and 371-381); the
read deadlines set before the handshake do not enter the model. -/
def handshakeFails (conn : Conn) : Option String :=
  if conn.isTls then conn.handshakeErr else none

/-- The task `Listen` starts for an accepted connection (lines 340-361). -/
def acceptHandler (env : Env) (p : peer) (conn : Conn) : peer :=
  match handshakeFails conn with
  | some _ => p
  | none =>
    let (p1, sess) := newSession p conn
    match runHook env.PostAccept p1 sess with
    | (p2, some _) => (sessionClose env p2 sess).1
    | (p2, none) => startReadLoop (hubSet p2 sess) sess

/-- Whether `sub` occurs in `s` as a contiguous run of characters. -/
def containsChars : List Char → List Char → Bool
  | [], sub => sub.isEmpty
  | c :: cs, sub => sub.isPrefixOf (c :: cs) || containsChars cs sub

/-- The library function `strings.Contains`. -/
def stringsContains (s substr : String) : Bool := containsChars s.toList substr.toList

/-- The method `peer.ServeConn`: the session and the error it returns.  Its
`return nil, err` statements give the nil interface value (`none`), and
`return sess, nil` a non-nil `*session` (`some`). -/
def ServeConn (env : Env) (p : peer) (conn : Conn) : peer × Option SessRef × Option GoError :=
  let network := conn.network
  if stringsContains network "udp" then
    (p, none, some (GoError.msg ("invalid network: " ++ network
      ++ ",\nrefer to the following: tcp, tcp4, tcp6, unix or unixpacket")))
  else
    match handshakeFails conn with
    | some e =>
      (p, none, some (GoError.msg ("TLS handshake error from " ++ conn.remoteAddr ++ ": " ++ e)))
    | none =>
      let (p1, sess) := newSession p conn
      match runHook env.PostAccept p1 sess with
      | (p2, some rerr) => ((sessionClose env p2 sess).1, none, some rerr.ToError)
      | (p2, none) => (startReadLoop (hubSet p2 sess) sess, some sess, none)

/-! ## Close -/

/-- How `Close` ends. -/
inductive CloseOutcome where
  /-- `Close` returned this error (nil when `none`). -/
  | returned (err : Option GoError)
  /-- `Close` never returns: its goroutine waits on `errCh` for ever. -/
  | blocked
deriving DecidableEq, Repr

/-- Capacity of the channel made by `make(chan error, 10)`. -/
def errChCap : Nat := 10

/-- State of one run of `Close`. -/
structure CloseState where
  p : peer
  /-- Values buffered in `errCh`, oldest first. -/
  errCh : List (Option GoError)
  /-- Sessions whose task `errCh <- sess.Close()` was started by `Go` and has not
  sent yet, oldest first. -/
  pending : List SessRef
  /-- The variable `count`. -/
  count : Nat

/-- Up to `k` of the started tasks run `errCh <- sess.Close()` to the end, oldest
first.  A task whose send would find the buffer full is left for later: its send
cannot complete before something is received. -/
def runTasks (env : Env) : Nat → CloseState → CloseState
  | 0, st => st
  | k + 1, st =>
    match st.pending with
    | [] => st
    | r :: rest =>
      if st.errCh.length < errChCap then
        let (p1, e) := sessionClose env st.p r
        runTasks env k { st with p := p1, errCh := st.errCh ++ [e], pending := rest }
      else st

/-- The traversal `p.sessHub.Range` of `Close` (lines 406-414) over the sessions
of the hub.  `go r` says whether `Go` takes the task for session `r`; `sched`
says how many started tasks run before each step.  The flag of the result is
true when the send of the synchronous fallback finds `errCh` full: nothing
receives from `errCh` before the traversal ends, so that send never completes. -/
def closeRange (env : Env) (go : SessRef → Bool) :
    List SessRef → List Nat → CloseState → CloseState × Bool
  | [], _, st => (st, false)
  | r :: rest, sched, st =>
    let st1 := runTasks env (sched.headD 0) st
    let st2 := { st1 with count := st1.count + 1 }
    if go r then
      closeRange env go rest sched.tail { st2 with pending := st2.pending ++ [r] }
    else
      let (p1, e) := sessionClose env st2.p r
      if st2.errCh.length < errChCap then
        closeRange env go rest sched.tail { st2 with p := p1, errCh := st2.errCh ++ [e] }
      else ({ st2 with p := p1 }, true)

/-- The loop `for i := 0; i < count; i++` of `Close` (lines 415-419): `i` receives
are left, `err` is the error merged so far. -/
def closeCollect (env : Env) : Nat → List Nat → CloseState → Option GoError → peer × CloseOutcome
  | 0, _, st, err => (st.p, CloseOutcome.returned err)
  | i + 1, sched, st, err =>
    let st1 := runTasks env (sched.headD 0) st
    match st1.errCh with
    | e :: buf => closeCollect env i sched.tail { st1 with errCh := buf } (env.Merge err e)
    | [] =>
      match st1.pending with
      | r :: rest =>
        let (p1, e) := sessionClose env st1.p r
        closeCollect env i sched.tail { st1 with p := p1, pending := rest } (env.Merge err e)
      | [] => (st1.p, CloseOutcome.blocked)

/-- The method `peer.Close`.  Closing `closeCh` a second time panics; the deferred
`recover` turns the panic into the returned error.  Session closes are taken to
return without panic. -/
def Close (env : Env) (p : peer) (go : SessRef → Bool) (sched : List Nat) : peer × CloseOutcome :=
  if p.closeCh then
    (p, CloseOutcome.returned
      (some (GoError.msg ("panic:\n" ++ "close of closed channel" ++ "\n" ++ env.PanicTrace))))
  else
    let p1 := { p with closeCh := true, registered := false }
    let refs := p1.sessHub.map (fun e => e.2)
    match closeRange env go refs sched { p := p1, errCh := [], pending := [], count := 0 } with
    | (st, true) => (st.p, CloseOutcome.blocked)
    | (st, false) => closeCollect env st.count (sched.drop refs.length) st none

/-! ## The context pool -/

/-- A pooled `readHandleCtx`: `ref` is the identity of the object, `sess` its
session (nil when `none`).  The field `next` is the rest of the free list. -/
structure readHandleCtx where
  ref : Nat
  sess : Option SessRef
deriving DecidableEq, Repr

/-- The part of the peer and of its sessions that `getContext` and `putContext`
touch. -/
structure ctxPool where
  /-- The free list: the head is `p.freeContext`, then follow the `next` links. -/
  freeContext : List readHandleCtx
  /-- Number of calls of `newReadHandleCtx` so far. -/
  allocated : Nat
  /-- Counter of the `graceCtxWaitGroup` of each session. -/
  graceCtxWaitGroup : SessRef → Nat

/-- Modelled from the spec: `newReadHandleCtx` (context.go is not part of the
sources at hand): a newly allocated context, bound to no session; `ref` is the
identity the allocation gives it. -/
def newReadHandleCtx (ref : Nat) : readHandleCtx := { ref := ref, sess := none }

/-- Modelled from the spec: `readHandleCtx.reInit` (context.go is not part of the
sources at hand): the context is bound to the session. -/
def readHandleCtx.reInit (ctx : readHandleCtx) (s : SessRef) : readHandleCtx :=
  { ctx with sess := some s }

/-- Modelled from the spec: `readHandleCtx.clean` (context.go is not part of the
sources at hand): the fields of the context are cleared. -/
def readHandleCtx.clean (ctx : readHandleCtx) : readHandleCtx := { ctx with sess := none }

/-- The method `peer.getContext`. -/
def getContext (p : ctxPool) (s : SessRef) (withWg : Bool) : ctxPool × readHandleCtx :=
  let wg := if withWg then Function.update p.graceCtxWaitGroup s (p.graceCtxWaitGroup s + 1)
            else p.graceCtxWaitGroup
  match p.freeContext with
  | [] =>
    let ctx := newReadHandleCtx p.allocated
    ({ p with allocated := p.allocated + 1, graceCtxWaitGroup := wg }, ctx.reInit s)
  | ctx :: next =>
    ({ p with freeContext := next, graceCtxWaitGroup := wg }, ctx.reInit s)

/-- The method `peer.putContext`; `none` when it panics (nil session, or a wait
group counter that would become negative). -/
def putContext (p : ctxPool) (ctx : readHandleCtx) (withWg : Bool) : Option ctxPool :=
  let wg : Option (SessRef → Nat) :=
    if withWg then
      match ctx.sess with
      | none => none
      | some s =>
        if p.graceCtxWaitGroup s = 0 then none
        else some (Function.update p.graceCtxWaitGroup s (p.graceCtxWaitGroup s - 1))
    else some p.graceCtxWaitGroup
  wg.map (fun w => { p with graceCtxWaitGroup := w, freeContext := ctx.clean :: p.freeContext })

/-- One cycle: a context is taken for session `s` and put back. -/
def ctxCycle (p : ctxPool) (s : SessRef) (withWg : Bool) : Option (ctxPool × readHandleCtx) :=
  let (p1, ctx) := getContext p s withWg
  (putContext p1 ctx withWg).map (fun p2 => (p2, ctx))

/-- Sequential cycles, one for each request; the result lists the context each
`getContext` returned. -/
def ctxCycles : List (SessRef × Bool) → ctxPool → Option (ctxPool × List readHandleCtx)
  | [], p => some (p, [])
  | (s, w) :: rest, p =>
    match ctxCycle p s w with
    | none => none
    | some (p1, ctx) =>
      match ctxCycles rest p1 with
      | none => none
      | some (p2, ctxs) => some (p2, ctx :: ctxs)

/-! ## Concrete peers, connections and collaborators -/

/-- The veto of the auth example (`examples/auth/server.go`): code 403. -/
def authFail : Rerror := { Code := 403, Message := "auth fail", Detail := "auth fail detail" }

/-- A hook that vetoes sessions whose remote address is `10.0.0.66:4000`. -/
def exampleHook (s : session) : HookResult :=
  if s.conn.remoteAddr = "10.0.0.66:4000" then { veto := some authFail, newId := none }
  else { veto := none, newId := none }

/-- A merge of two possibly nil errors that joins their texts. -/
def exampleMerge : Option GoError → Option GoError → Option GoError
  | none, e => e
  | some a, none => some a
  | some a, some b => some (GoError.msg (a.Error ++ "; " ++ b.Error))

/-- Collaborators for the concrete runs below. -/
def exampleEnv : Env :=
  { rerrDialFailed := { Code := 105, Message := "Dial Failed", Detail := "" },
    PostDial := exampleHook,
    PostAccept := exampleHook,
    sessCloseErr := fun _ => none,
    Merge := exampleMerge,
    PanicTrace := "" }

/-- A TCP connection from local port 50001 to a server on port 9090. -/
def connA : Conn :=
  { ref := 1, network := "tcp", localAddr := "127.0.0.1:50001", remoteAddr := "127.0.0.1:9090",
    isTls := false, handshakeErr := none }

/-- A later TCP connection to the same server, from local port 50002. -/
def connB : Conn :=
  { ref := 2, network := "tcp", localAddr := "127.0.0.1:50002", remoteAddr := "127.0.0.1:9090",
    isTls := false, handshakeErr := none }

/-- A TCP connection whose remote end the example hook vetoes. -/
def connVetoed : Conn :=
  { ref := 3, network := "tcp", localAddr := "127.0.0.1:9090", remoteAddr := "10.0.0.66:4000",
    isTls := false, handshakeErr := none }

/-- A connection of a datagram-mode Unix socket (`*net.UnixConn`). -/
def connUnixgram : Conn :=
  { ref := 4, network := "unixgram", localAddr := "/tmp/teleport.sock", remoteAddr := "",
    isTls := false, handshakeErr := none }

/-- A client peer with redial count 3 and one dialled session on `connA`. -/
def clientPeer : peer :=
  { heap := [{ conn := connA, id := "127.0.0.1:50001", status := Status.statusOk,
               hasRedial := true }],
    sessHub := [("127.0.0.1:50001", 0)],
    closeCh := false, registered := true, tlsConfig := false, redialTimes := 3,
    listenAddr := "", readLoops := [0], closeLog := [], dialCalls := 1 }

/-- The same peer with a session whose id a plugin has set to `user-7`. -/
def namedPeer : peer :=
  { clientPeer with
    heap := [{ conn := connA, id := "user-7", status := Status.statusOk, hasRedial := true }],
    sessHub := [("user-7", 0)] }

/-- A dial function whose call number 1 is refused and whose other calls give
`connB`. -/
def flakyDial : DialFunc := fun n =>
  if n = 1 then Except.error (GoError.net "connection refused" false) else Except.ok connB

/-- A dial function that always gives `connB`. -/
def steadyDial : DialFunc := fun _ => Except.ok connB

/-- A dial function that reaches the vetoed remote end. -/
def vetoedDial : DialFunc := fun _ => Except.ok connVetoed

/-- A temporary accept error while the peer is running. -/
def tempAcceptError : AcceptEvent :=
  { result := Except.error (GoError.net "accept: too many open files" true), closed := false }

/-- Session number `i` of the crowded peer. -/
def crowdSession (i : Nat) : session :=
  { conn := { ref := i, network := "tcp", localAddr := "127.0.0.1:9090",
              remoteAddr := "10.0.0.1:4000", isTls := false, handshakeErr := none },
    id := "s", status := Status.statusOk, hasRedial := false }

/-- A server peer whose hub holds eleven sessions. -/
def crowdedPeer : peer :=
  { heap := (List.range 11).map crowdSession,
    sessHub := [("s0", 0), ("s1", 1), ("s2", 2), ("s3", 3), ("s4", 4), ("s5", 5), ("s6", 6),
                ("s7", 7), ("s8", 8), ("s9", 9), ("s10", 10)],
    closeCh := false, registered := true, tlsConfig := false, redialTimes := 0,
    listenAddr := ":9090", readLoops := [0, 1, 2, 3, 4, 5, 6, 7, 8, 9, 10], closeLog := [],
    dialCalls := 0 }

/-- A server peer listening on port 9090, with no session yet. -/
def serverPeer : peer :=
  { heap := [], sessHub := [], closeCh := false, registered := true, tlsConfig := false,
    redialTimes := 0, listenAddr := ":9090", readLoops := [], closeLog := [], dialCalls := 0 }

/-- A successful accept of `connVetoed`. -/
def goodAccept : AcceptEvent := { result := Except.ok connVetoed, closed := false }

/-- An accept error that is not temporary, while the peer is running. -/
def fatalAcceptError : AcceptEvent :=
  { result := Except.error (GoError.net "accept: invalid argument" false), closed := false }

/-- The starting state of the accept loop. -/
def listenStart : ListenState := { tempDelay := 0, sleeps := [], spawned := [] }

/-! ## Basic facts about the session heap -/

theorem sess_setSess (p : peer) (r : SessRef) (s : session) (h : r < p.heap.length) :
    (p.setSess r s).sess r = s := by
  simp [peer.sess, peer.setSess, List.getD, h]

theorem sess_hubSet (p : peer) (r r' : SessRef) : (hubSet p r).sess r' = p.sess r' := rfl

theorem sess_startReadLoop (p : peer) (r r' : SessRef) :
    (startReadLoop p r).sess r' = p.sess r' := rfl

theorem sess_sessionClose (env : Env) (p : peer) (r : SessRef) (h : r < p.heap.length) :
    (sessionClose env p r).1.sess r = { p.sess r with status := Status.statusClosed } := by
  simp [peer.sess, sessionClose, List.getD, h]

theorem dialCalls_sessionClose (env : Env) (p : peer) (r : SessRef) :
    (sessionClose env p r).1.dialCalls = p.dialCalls := rfl

theorem dialCalls_runHook (hook : session → HookResult) (p : peer) (r : SessRef) :
    (runHook hook p r).1.dialCalls = p.dialCalls := by
  unfold runHook
  generalize hook (p.sess r) = res
  rcases res with ⟨v, _ | i⟩ <;> rfl

theorem dialCalls_renew (env : Env) (p : peer) (sess : SessRef) (dialFunc : DialFunc) :
    (renewSessionForClient env p sess dialFunc).1.dialCalls = p.dialCalls + 1 := by
  unfold renewSessionForClient
  cases dialFunc p.dialCalls with
  | error e => rfl
  | ok c =>
    simp only
    generalize hq : peer.setSess _ sess _ = q
    have hq1 : q.dialCalls = p.dialCalls + 1 := by rw [← hq]; rfl
    have h2 := dialCalls_runHook env.PostDial q sess
    rcases hr : runHook env.PostDial q sess with ⟨p2, v⟩
    rw [hr] at h2
    simp only at h2
    cases v with
    | none => simp only [hubSet, startReadLoop, peer.setSess]; omega
    | some rerr => simp only [dialCalls_sessionClose]; omega

theorem dialCalls_afterAttempts (env : Env) (sess : SessRef) (dialFunc : DialFunc) (j : Nat)
    (p : peer) : (afterAttempts env sess dialFunc j p).dialCalls = p.dialCalls + j := by
  induction j generalizing p with
  | zero => rfl
  | succ j ih => rw [afterAttempts, ih, dialCalls_renew]; omega

/-! ## Redial -/

theorem redialLoop_all_fail (env : Env) (sess : SessRef) (dialFunc : DialFunc) (n : Nat)
    (p : peer) (h : ∀ j, j < n → attemptErr env sess dialFunc j p ≠ none) :
    redialLoop env sess dialFunc n p = (afterAttempts env sess dialFunc n p, false) := by
  induction n generalizing p with
  | zero => rfl
  | succ n ih =>
    have h0 := h 0 (Nat.succ_pos n)
    simp only [attemptErr, afterAttempts] at h0
    rw [redialLoop, afterAttempts]
    rcases hr : renewSessionForClient env p sess dialFunc with ⟨p1, e⟩
    rw [hr] at h0
    cases e with
    | none => exact absurd rfl h0
    | some e =>
      simp only
      apply ih
      intro j hj
      have hj1 := h (j + 1) (Nat.succ_lt_succ hj)
      simpa [attemptErr, afterAttempts, hr] using hj1

theorem redialLoop_first_success (env : Env) (sess : SessRef) (dialFunc : DialFunc) (n k : Nat)
    (p : peer) (hk : k < n) (hfail : ∀ j, j < k → attemptErr env sess dialFunc j p ≠ none)
    (hok : attemptErr env sess dialFunc k p = none) :
    redialLoop env sess dialFunc n p = (afterAttempts env sess dialFunc (k + 1) p, true) := by
  induction n generalizing p k with
  | zero => omega
  | succ n ih =>
    rw [redialLoop]
    rcases hr : renewSessionForClient env p sess dialFunc with ⟨p1, e⟩
    cases k with
    | zero =>
      simp only [attemptErr, afterAttempts, hr] at hok
      subst hok
      simp [afterAttempts, hr]
    | succ k =>
      have h0 := hfail 0 (Nat.succ_pos k)
      simp only [attemptErr, afterAttempts, hr] at h0
      cases e with
      | none => exact absurd rfl h0
      | some e =>
        simp only
        rw [ih k p1 (by omega)]
        · simp [afterAttempts, hr]
        · intro j hj
          have hj1 := hfail (j + 1) (Nat.succ_lt_succ hj)
          simpa [attemptErr, afterAttempts, hr] using hj1
        · simpa [attemptErr, afterAttempts, hr] using hok

theorem dialCalls_redialLoop_le (env : Env) (sess : SessRef) (dialFunc : DialFunc) (n : Nat)
    (p : peer) : (redialLoop env sess dialFunc n p).1.dialCalls ≤ p.dialCalls + n := by
  induction n generalizing p with
  | zero => simp [redialLoop]
  | succ n ih =>
    rw [redialLoop]
    have hd := dialCalls_renew env p sess dialFunc
    rcases hr : renewSessionForClient env p sess dialFunc with ⟨p1, e⟩
    rw [hr] at hd
    simp only at hd
    cases e with
    | none => simp only; omega
    | some e =>
      simp only
      have := ih p1
      omega

/-- C1: when the connection handed to the redial callback is no longer the
connection of the session, the callback returns true at once: the peer (its
sessions and its hub) is left as it was and no dial is made. -/
theorem redial_short_circuit (env : Env) (p : peer) (sess : SessRef) (dialFunc : DialFunc)
    (oldConn : Conn) (hold : oldConn ≠ (p.sess sess).conn) :
    redialForClientLocked env p sess dialFunc oldConn = (p, true)
      ∧ (redialForClientLocked env p sess dialFunc oldConn).1.dialCalls = p.dialCalls
      ∧ (redialForClientLocked env p sess dialFunc oldConn).1.heap = p.heap
      ∧ (redialForClientLocked env p sess dialFunc oldConn).1.sessHub = p.sessHub := by
  have h : redialForClientLocked env p sess dialFunc oldConn = (p, true) := by
    simp [redialForClientLocked, hold]
  simp [h]

/-- C2: called with the current connection of the session, the redial callback of
a peer with redial count N makes at most N renewal attempts; when all of the
first N attempts fail it makes exactly N and returns false; when attempt k
(1 ≤ k ≤ N) is the first to succeed it makes exactly k and returns true. -/
theorem redial_bounded (env : Env) (p : peer) (sess : SessRef) (dialFunc : DialFunc) :
    (redialForClientLocked env p sess dialFunc (p.sess sess).conn).1.dialCalls
        ≤ p.dialCalls + p.redialTimes.toNat
      ∧ ((∀ j, j < p.redialTimes.toNat → attemptErr env sess dialFunc j p ≠ none) →
          redialForClientLocked env p sess dialFunc (p.sess sess).conn
              = (afterAttempts env sess dialFunc p.redialTimes.toNat p, false)
            ∧ (redialForClientLocked env p sess dialFunc (p.sess sess).conn).1.dialCalls
              = p.dialCalls + p.redialTimes.toNat)
      ∧ (∀ k, 1 ≤ k → k ≤ p.redialTimes.toNat →
          (∀ j, j < k - 1 → attemptErr env sess dialFunc j p ≠ none) →
          attemptErr env sess dialFunc (k - 1) p = none →
          redialForClientLocked env p sess dialFunc (p.sess sess).conn
              = (afterAttempts env sess dialFunc k p, true)
            ∧ (redialForClientLocked env p sess dialFunc (p.sess sess).conn).1.dialCalls
              = p.dialCalls + k) := by
  have hred : redialForClientLocked env p sess dialFunc (p.sess sess).conn
      = redialLoop env sess dialFunc p.redialTimes.toNat p := by
    simp [redialForClientLocked]
  rw [hred]
  refine ⟨dialCalls_redialLoop_le env sess dialFunc _ p, ?_, ?_⟩
  · intro hall
    rw [redialLoop_all_fail env sess dialFunc _ p hall]
    exact ⟨rfl, dialCalls_afterAttempts env sess dialFunc _ p⟩
  · intro k hk1 hkN hfail hok
    have hk : k - 1 + 1 = k := by omega
    have := redialLoop_first_success env sess dialFunc p.redialTimes.toNat (k - 1) p
      (by omega) hfail hok
    rw [hk] at this
    rw [this]
    exact ⟨rfl, dialCalls_afterAttempts env sess dialFunc k p⟩

/-- C8: when the dial of a renewal succeeds, the id that the swap installs on the
session is the id it had before, unless that id was the local address of the old
connection, in which case it is the local address of the new connection; the
session is bound to the new connection, and a hook that sets no id leaves the
installed id on the session. -/
theorem renew_preserves_id (env : Env) (p : peer) (sess : SessRef) (dialFunc : DialFunc)
    (c : Conn) (hs : sess < p.heap.length) (hd : dialFunc p.dialCalls = Except.ok c) :
    ((p.sess sess).Id ≠ (p.sess sess).LocalIp →
        (renewSwap (p.sess sess) (if p.tlsConfig then tlsClient c else c)).Id = (p.sess sess).Id)
      ∧ ((p.sess sess).Id = (p.sess sess).LocalIp →
        (renewSwap (p.sess sess) (if p.tlsConfig then tlsClient c else c)).Id
          = (if p.tlsConfig then tlsClient c else c).localAddr)
      ∧ (renewSwap (p.sess sess) (if p.tlsConfig then tlsClient c else c)).conn
          = (if p.tlsConfig then tlsClient c else c)
      ∧ ((env.PostDial (renewSwap (p.sess sess) (if p.tlsConfig then tlsClient c else c))).newId
            = none →
          (((renewSessionForClient env p sess dialFunc).1.sess sess).Id
              = (renewSwap (p.sess sess) (if p.tlsConfig then tlsClient c else c)).Id
            ∧ ((renewSessionForClient env p sess dialFunc).1.sess sess).conn
              = (if p.tlsConfig then tlsClient c else c))) := by
  generalize hconn : (if p.tlsConfig then tlsClient c else c) = conn
  have hswapconn : (renewSwap (p.sess sess) conn).conn = conn := by
    unfold renewSwap
    simp only
    split <;> rfl
  refine ⟨?_, ?_, hswapconn, ?_⟩
  · intro hne
    simp only [session.Id, session.LocalIp] at hne
    simp [renewSwap, session.SetId, session.Id, session.LocalIp, Ne.symm hne]
  · intro heq
    simp only [session.Id, session.LocalIp] at heq
    simp [renewSwap, session.SetId, session.Id, session.LocalIp, heq]
  · intro hnone
    have hsess0 : ({ p with dialCalls := p.dialCalls + 1 } : peer).sess sess = p.sess sess := rfl
    have hlen : sess < ({ p with dialCalls := p.dialCalls + 1 } : peer).heap.length := hs
    unfold renewSessionForClient
    simp only [hd, hconn, hsess0]
    generalize hq : ({ p with dialCalls := p.dialCalls + 1 } : peer) = q at hlen ⊢
    have hqs : (q.setSess sess (renewSwap (p.sess sess) conn)).sess sess
        = renewSwap (p.sess sess) conn := sess_setSess q sess _ hlen
    have hqlen : sess < (q.setSess sess (renewSwap (p.sess sess) conn)).heap.length := by
      simpa [peer.setSess] using hlen
    generalize hq1 : q.setSess sess (renewSwap (p.sess sess) conn) = q1 at hqs hqlen ⊢
    generalize hsw : renewSwap (p.sess sess) conn = sw at hqs hnone hswapconn ⊢
    have hrun : runHook env.PostDial q1 sess = (q1, (env.PostDial sw).veto) := by
      simp [runHook, hqs, hnone]
    rw [hrun]
    cases (env.PostDial sw).veto with
    | none =>
      simp only [sess_hubSet, sess_startReadLoop, sess_setSess _ _ _ hqlen, hqs, session.Id,
        hswapconn, and_self]
    | some rerr =>
      simp only [sess_sessionClose _ _ _ hqlen, hqs, session.Id, hswapconn, and_self]

/-! ## Plugin veto -/

theorem set_append_singleton {α : Type} (l : List α) (a b : α) :
    (l ++ [a]).set l.length b = l ++ [b] := by
  induction l with
  | nil => rfl
  | cons x l ih => simp [ih]

theorem getD_append_singleton {α : Type} (l : List α) (a d : α) :
    (l ++ [a]).getD l.length d = a := by
  induction l with
  | nil => rfl
  | cons x l ih => simp [ih]

theorem newSessionForClient_pre (env : Env) (p : peer) (dialFunc : DialFunc) (c : Conn)
    (hd : dialFunc p.dialCalls = Except.ok c) :
    ∃ q : peer, q.heap = p.heap ++ [dialedSession p c] ∧ q.sessHub = p.sessHub
      ∧ q.readLoops = p.readLoops ∧ q.closeLog = p.closeLog
      ∧ newSessionForClient env p dialFunc
        = (match runHook env.PostDial q p.heap.length with
          | (p4, some rerr) => ((sessionClose env p4 p.heap.length).1, none, some rerr)
          | (p4, none) =>
            (hubSet (startReadLoop p4 p.heap.length) p.heap.length, some p.heap.length, none)) := by
  refine ⟨{ p with heap := p.heap ++ [dialedSession p c], dialCalls := p.dialCalls + 1 },
    rfl, rfl, rfl, rfl, ?_⟩
  unfold newSessionForClient
  simp only [hd, newSession]
  by_cases h : p.redialTimes > 0
  · simp [h, peer.setSess, peer.sess, set_append_singleton, getD_append_singleton, dialedSession,
      session.SetId, session.LocalIp]
  · simp [h, peer.setSess, peer.sess, set_append_singleton, getD_append_singleton, dialedSession,
      session.SetId, session.LocalIp]

theorem sess_fresh (q p : peer) (s : session) (h : q.heap = p.heap ++ [s]) :
    q.sess p.heap.length = s ∧ p.heap.length < q.heap.length := by
  constructor
  · simp [peer.sess, h]
  · simp [h]

theorem hub_filter_fresh (p : peer) (hwf : hubWf p) :
    p.sessHub.filter (fun e => e.2 != p.heap.length) = p.sessHub := by
  rw [List.filter_eq_self]
  intro e he
  have := hwf e he
  simp only [bne_iff_ne, ne_eq]
  exact Nat.ne_of_lt this

theorem runHook_veto (hook : session → HookResult) (p : peer) (r : SessRef) :
    (runHook hook p r).2 = (hook (p.sess r)).veto := rfl

theorem runHook_fields (hook : session → HookResult) (p : peer) (r : SessRef) :
    (runHook hook p r).1.sessHub = p.sessHub ∧ (runHook hook p r).1.readLoops = p.readLoops
      ∧ (runHook hook p r).1.closeLog = p.closeLog
      ∧ (runHook hook p r).1.heap.length = p.heap.length := by
  unfold runHook
  generalize hook (p.sess r) = res
  rcases res with ⟨v, _ | i⟩ <;> simp [peer.setSess]

/-- What a vetoed session establishment leaves behind: the hook ran on a peer
`q` whose newest session is `r`, then the session was closed. -/
theorem veto_close (env : Env) (hook : session → HookResult) (q : peer) (r : SessRef)
    (hr : r < q.heap.length) (hfresh : q.sessHub.filter (fun e => e.2 != r) = q.sessHub) :
    (sessionClose env (runHook hook q r).1 r).1.sessHub = q.sessHub
      ∧ (sessionClose env (runHook hook q r).1 r).1.readLoops = q.readLoops
      ∧ ((sessionClose env (runHook hook q r).1 r).1.sess r).status = Status.statusClosed
      ∧ (sessionClose env (runHook hook q r).1 r).1.closeLog = q.closeLog ++ [r] := by
  obtain ⟨h1, h2, h3, h4⟩ := runHook_fields hook q r
  refine ⟨?_, ?_, ?_, ?_⟩
  · show List.filter _ (runHook hook q r).1.sessHub = _
    rw [h1, hfresh]
  · exact h2
  · rw [sess_sessionClose env _ r (by rw [h4]; exact hr)]
  · show (runHook hook q r).1.closeLog ++ [r] = _
    rw [h3]

/-- The common end of the three vetoed paths: hook on the fresh session of `q`,
then close. -/
theorem veto_outcome (env : Env) (hook : session → HookResult) (p q : peer) (s : session)
    (rerr : Rerror) (hwf : hubWf p) (hheap : q.heap = p.heap ++ [s])
    (hhub : q.sessHub = p.sessHub) (hrl : q.readLoops = p.readLoops)
    (hcl : q.closeLog = p.closeLog) (hv : (hook s).veto = some rerr) :
    (runHook hook q p.heap.length).2 = some rerr
      ∧ (sessionClose env (runHook hook q p.heap.length).1 p.heap.length).1.sessHub = p.sessHub
      ∧ (sessionClose env (runHook hook q p.heap.length).1 p.heap.length).1.readLoops
          = p.readLoops
      ∧ ((sessionClose env (runHook hook q p.heap.length).1 p.heap.length).1.sess
          p.heap.length).status = Status.statusClosed
      ∧ (sessionClose env (runHook hook q p.heap.length).1 p.heap.length).1.closeLog
          = p.closeLog ++ [p.heap.length] := by
  obtain ⟨hs, hlt⟩ := sess_fresh q p s hheap
  have hfresh : q.sessHub.filter (fun e => e.2 != p.heap.length) = q.sessHub := by
    rw [hhub]
    exact hub_filter_fresh p hwf
  obtain ⟨h1, h2, h3, h4⟩ := veto_close env hook q p.heap.length hlt hfresh
  refine ⟨?_, ?_, ?_, h3, ?_⟩
  · rw [runHook_veto, hs, hv]
  · rw [h1, hhub]
  · rw [h2, hrl]
  · rw [h4, hcl]

/-- When the post-dial hook or the post-accept hook returns a structured error
for the session being established, `newSessionForClient`, `ServeConn` and the
accept task of `Listen` close the session, leave the hub as it was and start no
read loop; `newSessionForClient` returns a nil `*session` with the error of the
hook, `ServeConn` a nil `Session` with that same error as an `error`. -/
theorem plugin_veto (env : Env) (p : peer) (rerr : Rerror) (hwf : hubWf p) :
    (∀ (dialFunc : DialFunc) (c : Conn), dialFunc p.dialCalls = Except.ok c →
        (env.PostDial (dialedSession p c)).veto = some rerr →
        (newSessionForClient env p dialFunc).2 = (none, some rerr)
          ∧ (newSessionForClient env p dialFunc).1.sessHub = p.sessHub
          ∧ (newSessionForClient env p dialFunc).1.readLoops = p.readLoops
          ∧ ((newSessionForClient env p dialFunc).1.sess p.heap.length).status
              = Status.statusClosed
          ∧ (newSessionForClient env p dialFunc).1.closeLog = p.closeLog ++ [p.heap.length])
      ∧ (∀ conn : Conn, stringsContains conn.network "udp" = false →
        handshakeFails conn = none →
        (env.PostAccept (acceptedSession conn)).veto = some rerr →
        (ServeConn env p conn).2 = (none, some rerr.ToError)
          ∧ (ServeConn env p conn).1.sessHub = p.sessHub
          ∧ (ServeConn env p conn).1.readLoops = p.readLoops
          ∧ ((ServeConn env p conn).1.sess p.heap.length).status = Status.statusClosed
          ∧ (ServeConn env p conn).1.closeLog = p.closeLog ++ [p.heap.length])
      ∧ (∀ conn : Conn, handshakeFails conn = none →
        (env.PostAccept (acceptedSession conn)).veto = some rerr →
        (acceptHandler env p conn).sessHub = p.sessHub
          ∧ (acceptHandler env p conn).readLoops = p.readLoops
          ∧ ((acceptHandler env p conn).sess p.heap.length).status = Status.statusClosed
          ∧ (acceptHandler env p conn).closeLog = p.closeLog ++ [p.heap.length]) := by
  refine ⟨?_, ?_, ?_⟩
  · intro dialFunc c hd hv
    obtain ⟨q, hheap, hhub, hrl, hcl, heq⟩ := newSessionForClient_pre env p dialFunc c hd
    obtain ⟨h0, h1, h2, h3, h4⟩ :=
      veto_outcome env env.PostDial p q _ rerr hwf hheap hhub hrl hcl hv
    rw [heq]
    rcases hr : runHook env.PostDial q p.heap.length with ⟨p4, v⟩
    rw [hr] at h0 h1 h2 h3 h4
    simp only at h0
    subst h0
    exact ⟨rfl, h1, h2, h3, h4⟩
  · intro conn hudp hhs hv
    obtain ⟨h0, h1, h2, h3, h4⟩ :=
      veto_outcome env env.PostAccept p (newSession p conn).1 (acceptedSession conn) rerr hwf
        rfl rfl rfl rfl hv
    unfold ServeConn
    simp only [hudp, hhs]
    rcases hr : runHook env.PostAccept (newSession p conn).1 (newSession p conn).2 with ⟨p2, v⟩
    have hr2 : runHook env.PostAccept (newSession p conn).1 p.heap.length = (p2, v) := hr
    rw [hr2] at h0 h1 h2 h3 h4
    simp only at h0
    subst h0
    exact ⟨rfl, h1, h2, h3, h4⟩
  · intro conn hhs hv
    obtain ⟨h0, h1, h2, h3, h4⟩ :=
      veto_outcome env env.PostAccept p (newSession p conn).1 (acceptedSession conn) rerr hwf
        rfl rfl rfl rfl hv
    unfold acceptHandler
    simp only [hhs]
    rcases hr : runHook env.PostAccept (newSession p conn).1 (newSession p conn).2 with ⟨p2, v⟩
    have hr2 : runHook env.PostAccept (newSession p conn).1 p.heap.length = (p2, v) := hr
    rw [hr2] at h0 h1 h2 h3 h4
    simp only at h0
    subst h0
    exact ⟨h1, h2, h3, h4⟩

/-! ## Dial and DialContext on a veto -/

/-- C4, for `Dial` and `DialContext`, where the code departs from the claim: when
the post-dial hook vetoes the session being established with `rerr`, the session
is closed, the hub is left as it was, no read loop is started and the returned
error is exactly `rerr`; but the `Session` returned is not nil: it is the
interface value that holds the nil `*session` of `newSessionForClient`. -/
theorem Dial_veto_returns_typed_nil (env : Env) (p : peer) (rerr : Rerror)
    (dialFunc : DialFunc) (c : Conn) (hwf : hubWf p)
    (hd : dialFunc p.dialCalls = Except.ok c)
    (hv : (env.PostDial (dialedSession p c)).veto = some rerr) :
    (Dial env p dialFunc).2 = (Session.ptr none, some rerr)
      ∧ (Dial env p dialFunc).2.1 ≠ Session.nil
      ∧ (DialContext env p dialFunc).2 = (Session.ptr none, some rerr)
      ∧ (DialContext env p dialFunc).2.1 ≠ Session.nil
      ∧ (Dial env p dialFunc).1 = (DialContext env p dialFunc).1
      ∧ (Dial env p dialFunc).1.sessHub = p.sessHub
      ∧ (Dial env p dialFunc).1.readLoops = p.readLoops
      ∧ ((Dial env p dialFunc).1.sess p.heap.length).status = Status.statusClosed
      ∧ (Dial env p dialFunc).1.closeLog = p.closeLog ++ [p.heap.length] := by
  obtain ⟨h0, h1, h2, h3, h4⟩ := (plugin_veto env p rerr hwf).1 dialFunc c hd hv
  unfold Dial DialContext
  rcases hr : newSessionForClient env p dialFunc with ⟨p1, sess, r⟩
  rw [hr] at h0 h1 h2 h3 h4
  simp only [Prod.mk.injEq] at h0
  obtain ⟨hs, hr2⟩ := h0
  subst hs
  subst hr2
  refine ⟨rfl, ?_, rfl, ?_, rfl, h1, h2, h3, h4⟩
  · intro h
    cases h
  · intro h
    cases h

/-! ## The accept loop -/

theorem nextTempDelay_eq (d : Int) (h0 : 0 ≤ d) (h1 : d ≤ 1000000000) :
    nextTempDelay d = if d = 0 then 5000000 else min (2 * d) 1000000000 := by
  unfold nextTempDelay wrapInt64 Millisecond Second
  by_cases hd : d = 0
  · subst hd
    norm_num
  · simp only [beq_iff_eq, hd, if_false]
    norm_num
    have hw : (d * 2 + 9223372036854775808) % 18446744073709551616 - 9223372036854775808
        = 2 * d := by omega
    rw [hw]
    split <;> omega

theorem backoffDelay_succ (k : Nat) : backoffDelay (k + 1) = nextTempDelay (backoffDelay k) := by
  cases k with
  | zero =>
    rw [show backoffDelay 0 = 0 from rfl, nextTempDelay_eq 0 (le_refl 0) (by norm_num)]
    simp [backoffDelay, Millisecond, Second]
  | succ k =>
    have hpos : (0 : Int) < 2 ^ k := by positivity
    have hb : backoffDelay (k + 1) = min (5000000 * 2 ^ k) 1000000000 := by
      simp [backoffDelay, Millisecond, Second]
    have hb2 : backoffDelay (k + 1 + 1) = min (5000000 * (2 ^ k * 2)) 1000000000 := by
      simp [backoffDelay, Millisecond, Second, pow_succ]
    rw [hb2, hb]
    generalize (2 : Int) ^ k = x at hpos
    rw [nextTempDelay_eq _ (by omega) (by omega)]
    split <;> omega

theorem listenLoop_retry (ev : AcceptEvent) (rest : List AcceptEvent) (st : ListenState)
    (h : ev.isRetry = true) :
    listenLoop (ev :: rest) st
      = listenLoop rest { st with tempDelay := nextTempDelay st.tempDelay,
                                  sleeps := st.sleeps ++ [nextTempDelay st.tempDelay] } := by
  unfold AcceptEvent.isRetry at h
  rw [listenLoop]
  cases hr : ev.result with
  | error e =>
    rw [hr] at h
    simp only [Bool.and_eq_true, Bool.not_eq_true'] at h
    simp [h.1, h.2]
  | ok c =>
    rw [hr] at h
    exact absurd h (by simp)

theorem listenLoop_retries (evs rest : List AcceptEvent) (st : ListenState) (k : Nat)
    (hk : st.tempDelay = backoffDelay k) (h : ∀ ev ∈ evs, ev.isRetry = true) :
    listenLoop (evs ++ rest) st
      = listenLoop rest
          { st with tempDelay := backoffDelay (k + evs.length),
                    sleeps := st.sleeps
                      ++ (List.range evs.length).map (fun j => backoffDelay (k + j + 1)) } := by
  induction evs generalizing st k with
  | nil =>
    simp only [List.nil_append, List.length_nil, List.range_zero, List.map_nil, List.append_nil,
      Nat.add_zero, ← hk]
  | cons ev evs ih =>
    rw [List.cons_append, listenLoop_retry ev _ st (h ev (List.mem_cons_self _ _))]
    rw [ih _ (k + 1) (by simp only [hk, backoffDelay_succ])
      (fun e he => h e (List.mem_cons_of_mem _ he))]
    congr 2
    · rw [List.length_cons, show k + 1 + evs.length = k + (evs.length + 1) by omega]
    · simp only [List.length_cons, List.range_succ_eq_map, List.map_cons, List.map_map,
        List.append_assoc, List.singleton_append, hk, ← backoffDelay_succ, Nat.add_zero]
      congr 2
      apply List.map_congr_left
      intro j _
      simp only [Function.comp]
      rw [show k + 1 + j + 1 = k + (j + 1) + 1 by omega]

/-- C3: starting from `tempDelay = 0` (the start of `Listen`, or the turn after a
successful accept), the loop sleeps `min(5ms * 2^(k-1), 1s)` after the k-th
temporary accept error in a row; no delay exceeds 1s; a successful accept sets
`tempDelay` back to 0, and the first delay is 5ms. -/
theorem accept_backoff :
    (∀ (evs rest : List AcceptEvent) (st : ListenState), st.tempDelay = 0 →
        (∀ ev ∈ evs, ev.isRetry = true) →
        listenLoop (evs ++ rest) st
          = listenLoop rest
              { st with tempDelay := backoffDelay evs.length,
                        sleeps := st.sleeps
                          ++ (List.range evs.length).map (fun j => backoffDelay (j + 1)) })
      ∧ (∀ k : Nat, 1 ≤ k →
          backoffDelay k = min (5 * Millisecond * 2 ^ (k - 1)) (1 * Second)
            ∧ backoffDelay k ≤ 1 * Second)
      ∧ backoffDelay 1 = 5 * Millisecond
      ∧ (∀ (conn : Conn) (closed : Bool) (rest : List AcceptEvent) (st : ListenState),
          listenLoop ({ result := Except.ok conn, closed := closed } :: rest) st
            = listenLoop rest { st with tempDelay := 0, spawned := st.spawned ++ [conn] })
      ∧ (∀ (p : peer) (events : List AcceptEvent), p.listenAddr.length ≠ 0 →
          Listen p (Except.ok ()) events
            = listenLoop events { tempDelay := 0, sleeps := [], spawned := [] }) := by
  refine ⟨?_, ?_, ?_, ?_, ?_⟩
  · intro evs rest st h0 hall
    have := listenLoop_retries evs rest st 0 (by rw [h0]; rfl) hall
    simpa only [Nat.zero_add] using this
  · intro k hk
    have hk0 : k ≠ 0 := by omega
    have hb : backoffDelay k = min (5 * Millisecond * 2 ^ (k - 1)) (1 * Second) := by
      simp only [backoffDelay, hk0, if_false]
    exact ⟨hb, by rw [hb]; exact min_le_right _ _⟩
  · simp [backoffDelay, Millisecond, Second]
  · intro conn closed rest st
    rw [listenLoop]
  · intro p events hp
    simp [Listen, hp]

/-- One turn of the accept loop on an error `e` of accept, from any loop state. -/
theorem listenLoop_accept_error (ev : AcceptEvent) (rest : List AcceptEvent) (st : ListenState)
    (e : GoError) (he : ev.result = Except.error e) :
    (ev.closed = true →
        listenLoop (ev :: rest) st = (st, ListenOutcome.returned ErrListenClosed))
      ∧ (ev.closed = false → e.isTemporaryNetError = true →
        listenLoop (ev :: rest) st
            = listenLoop rest { st with tempDelay := nextTempDelay st.tempDelay,
                                        sleeps := st.sleeps ++ [nextTempDelay st.tempDelay] }
          ∧ (listenLoop [ev] st).2 = ListenOutcome.accepting)
      ∧ (ev.closed = false → e.isTemporaryNetError = false →
        listenLoop (ev :: rest) st = (st, ListenOutcome.returned e)) := by
  refine ⟨?_, ?_, ?_⟩
  · intro hc
    rw [listenLoop]
    simp [he, hc]
  · intro hc ht
    constructor
    · rw [listenLoop]
      simp [he, hc, ht]
    · rw [listenLoop]
      simp [he, hc, ht, listenLoop]
  · intro hc ht
    rw [listenLoop]
    simp [he, hc, ht]

theorem listenLoop_ok (ev : AcceptEvent) (rest : List AcceptEvent) (st : ListenState)
    (c : Conn) (h : ev.result = Except.ok c) :
    listenLoop (ev :: rest) st
      = listenLoop rest { st with tempDelay := 0, spawned := st.spawned ++ [c] } := by
  rw [listenLoop]
  simp [h]

theorem listenLoop_keeps (pre rest : List AcceptEvent) (st : ListenState)
    (h : ∀ x ∈ pre, x.keepsListening = true) :
    listenLoop (pre ++ rest) st = listenLoop rest (listenLoop pre st).1
      ∧ (listenLoop pre st).2 = ListenOutcome.accepting := by
  induction pre generalizing st with
  | nil => exact ⟨rfl, rfl⟩
  | cons ev pre ih =>
    have hev := h ev (List.mem_cons_self _ _)
    have hrest : ∀ x ∈ pre, x.keepsListening = true := fun x hx => h x (List.mem_cons_of_mem _ hx)
    unfold AcceptEvent.keepsListening at hev
    cases hr : ev.result with
    | error e =>
      rw [hr] at hev
      simp only at hev
      rw [List.cons_append, listenLoop_retry ev _ st hev, listenLoop_retry ev _ st hev]
      exact ih _ hrest
    | ok c =>
      rw [List.cons_append, listenLoop_ok ev _ st c hr, listenLoop_ok ev _ st c hr]
      exact ih _ hrest

theorem Listen_eq_listenLoop (p : peer) (events : List AcceptEvent)
    (hp : p.listenAddr.length ≠ 0) :
    Listen p (Except.ok ()) events
      = listenLoop events { tempDelay := 0, sleeps := [], spawned := [] } := by
  simp [Listen, hp]

/-- C9: `Listen` runs with a bound listener and has gone through the accept
events `pre` without returning; the next accept returns the error `e`.  When the
shutdown signal has been raised, `Listen` returns `ErrListenClosed` (not `e`,
temporary or not) without sleeping.  Otherwise, when `e` is a temporary network
error, `Listen` does not return: it sleeps, waits in the next accept, and goes on
with the events that follow.  Otherwise `Listen` returns `e` itself. -/
theorem listen_accept_error (p : peer) (pre rest : List AcceptEvent) (ev : AcceptEvent)
    (e : GoError) (hp : p.listenAddr.length ≠ 0)
    (hpre : ∀ x ∈ pre, x.keepsListening = true) (he : ev.result = Except.error e) :
    (ev.closed = true →
        Listen p (Except.ok ()) (pre ++ ev :: rest)
            = ((Listen p (Except.ok ()) pre).1, ListenOutcome.returned ErrListenClosed)
          ∧ (e ≠ ErrListenClosed →
              (Listen p (Except.ok ()) (pre ++ ev :: rest)).2 ≠ ListenOutcome.returned e))
      ∧ (ev.closed = false → e.isTemporaryNetError = true →
        (Listen p (Except.ok ()) (pre ++ [ev])).2 = ListenOutcome.accepting
          ∧ (Listen p (Except.ok ()) (pre ++ [ev])).1.sleeps
              = (Listen p (Except.ok ()) pre).1.sleeps
                ++ [nextTempDelay (Listen p (Except.ok ()) pre).1.tempDelay]
          ∧ Listen p (Except.ok ()) (pre ++ ev :: rest)
              = listenLoop rest (Listen p (Except.ok ()) (pre ++ [ev])).1)
      ∧ (ev.closed = false → e.isTemporaryNetError = false →
        Listen p (Except.ok ()) (pre ++ ev :: rest)
          = ((Listen p (Except.ok ()) pre).1, ListenOutcome.returned e)) := by
  simp only [Listen_eq_listenLoop p _ hp]
  generalize hst0 : ({ tempDelay := 0, sleeps := [], spawned := [] } : ListenState) = st0
  have hsplit : ∀ tail, listenLoop (pre ++ tail) st0 = listenLoop tail (listenLoop pre st0).1 :=
    fun tail => (listenLoop_keeps pre tail st0 hpre).1
  obtain ⟨h1, h2, h3⟩ := listenLoop_accept_error ev rest (listenLoop pre st0).1 e he
  obtain ⟨_, h2s, _⟩ := listenLoop_accept_error ev [] (listenLoop pre st0).1 e he
  refine ⟨?_, ?_, ?_⟩
  · intro hc
    rw [hsplit, h1 hc]
    refine ⟨rfl, ?_⟩
    intro hne heq
    simp only [ListenOutcome.returned.injEq] at heq
    exact hne heq.symm
  · intro hc ht
    have hone : listenLoop (pre ++ [ev]) st0
        = ({ (listenLoop pre st0).1 with
              tempDelay := nextTempDelay (listenLoop pre st0).1.tempDelay,
              sleeps := (listenLoop pre st0).1.sleeps
                ++ [nextTempDelay (listenLoop pre st0).1.tempDelay] },
            ListenOutcome.accepting) := by
      rw [hsplit, (h2s hc ht).1]
      rfl
    rw [hone, hsplit, (h2 hc ht).1]
    exact ⟨rfl, rfl, rfl⟩
  · intro hc ht
    rw [hsplit, h3 hc ht]

/-! ## The context pool -/

theorem ctxCycle_nil (p : ctxPool) (s : SessRef) (w : Bool) (h : p.freeContext = []) :
    ctxCycle p s w
      = some ({ p with freeContext := [{ ref := p.allocated, sess := none }],
                       allocated := p.allocated + 1 },
              { ref := p.allocated, sess := some s }) := by
  cases w with
  | false =>
    simp [ctxCycle, getContext, putContext, h, newReadHandleCtx, readHandleCtx.reInit,
      readHandleCtx.clean]
  | true =>
    simp [ctxCycle, getContext, putContext, h, newReadHandleCtx, readHandleCtx.reInit,
      readHandleCtx.clean]

theorem ctxCycle_cons (p : ctxPool) (s : SessRef) (w : Bool) (c : readHandleCtx)
    (rest : List readHandleCtx) (h : p.freeContext = c :: rest) :
    ctxCycle p s w
      = some ({ p with freeContext := { c with sess := none } :: rest },
              { c with sess := some s }) := by
  cases w with
  | false =>
    simp [ctxCycle, getContext, putContext, h, newReadHandleCtx, readHandleCtx.reInit,
      readHandleCtx.clean]
  | true =>
    simp [ctxCycle, getContext, putContext, h, newReadHandleCtx, readHandleCtx.reInit,
      readHandleCtx.clean]

theorem ctxCycles_steady (reqs : List (SessRef × Bool)) (p : ctxPool) (c : readHandleCtx)
    (rest : List readHandleCtx) (h : p.freeContext = c :: rest) (hc : c.sess = none) :
    ctxCycles reqs p = some (p, reqs.map (fun r => { c with sess := some r.1 })) := by
  induction reqs with
  | nil => rfl
  | cons r reqs ih =>
    obtain ⟨s, w⟩ := r
    have hcc : ({ c with sess := none } : readHandleCtx) = c := by
      cases c
      simp only at hc
      simp [hc]
    have hp : ({ p with freeContext := { c with sess := none } :: rest } : ctxPool) = p := by
      rw [hcc, ← h]
    rw [ctxCycles, ctxCycle_cons p s w c rest h, hp]
    simp only [ih, List.map_cons]

/-- C7: for any free list and any N ≥ 1 sequential get/put cycles (the first for
`s`, the others for `reqs`), every cycle completes; one context is allocated when
the free list was empty and none otherwise; every `getContext` after the first
returns the object put back just before (the head of the free list, the object
of the first cycle); and after each later cycle the pool, hence the length of its
free list, is what it was after the first cycle. -/
theorem context_pool_reuse (p : ctxPool) (s : SessRef) (w : Bool)
    (reqs : List (SessRef × Bool)) :
    ∃ (p1 : ctxPool) (c1 : readHandleCtx) (ctxs : List readHandleCtx),
      ctxCycle p s w = some (p1, c1)
        ∧ ctxCycles reqs p1 = some (p1, ctxs)
        ∧ ctxCycles ((s, w) :: reqs) p = some (p1, c1 :: ctxs)
        ∧ p1.allocated = p.allocated + (if p.freeContext.isEmpty then 1 else 0)
        ∧ ctxs.length = reqs.length
        ∧ (∀ c ∈ ctxs, c.ref = c1.ref ∧ p1.freeContext.head? = some c.clean)
        ∧ p1.freeContext.length = (if p.freeContext.isEmpty then 1 else p.freeContext.length) := by
  cases hfree : p.freeContext with
  | nil =>
    have h1 := ctxCycle_nil p s w hfree
    have h2 := ctxCycles_steady reqs
      { p with freeContext := [{ ref := p.allocated, sess := none }],
               allocated := p.allocated + 1 }
      { ref := p.allocated, sess := none } [] rfl rfl
    refine ⟨_, _, _, h1, h2, ?_, ?_, ?_, ?_, ?_⟩
    · rw [ctxCycles, h1]
      simp only [h2]
    · simp
    · simp
    · intro c hc
      simp only [List.mem_map] at hc
      obtain ⟨r, _, rfl⟩ := hc
      simp [readHandleCtx.clean]
    · simp
  | cons c rest =>
    have h1 := ctxCycle_cons p s w c rest hfree
    have h2 := ctxCycles_steady reqs
      { p with freeContext := { c with sess := none } :: rest }
      { c with sess := none } rest rfl rfl
    refine ⟨_, _, _, h1, h2, ?_, ?_, ?_, ?_, ?_⟩
    · rw [ctxCycles, h1]
      simp only [h2]
    · simp
    · simp
    · intro c hc
      simp only [List.mem_map] at hc
      obtain ⟨r, _, rfl⟩ := hc
      simp [readHandleCtx.clean]
    · simp

/-! ## ServeConn and the network kind -/

/-- C10 (the code at the inputs where it departs from the claim): a connection
whose local address reports the connectionless kind `unixgram` or `ip` passes the
check of `ServeConn`; with no handshake failure and no veto the session is
created, registered in the hub, its read loop started, and returned. -/
theorem ServeConn_admits_connectionless (env : Env) (p : peer) (conn : Conn)
    (hn : conn.network = "unixgram" ∨ conn.network = "ip")
    (hhs : handshakeFails conn = none)
    (hv : (env.PostAccept (acceptedSession conn)).veto = none) :
    (ServeConn env p conn).2 = (some p.heap.length, none)
      ∧ p.heap.length ∈ (ServeConn env p conn).1.sessHub.map (fun e => e.2)
      ∧ p.heap.length ∈ (ServeConn env p conn).1.readLoops
      ∧ (ServeConn env p conn).1.heap.length = p.heap.length + 1 := by
  have hudp : stringsContains conn.network "udp" = false := by
    rcases hn with h | h <;> rw [h] <;> decide
  have hs : (newSession p conn).1.sess p.heap.length = acceptedSession conn :=
    (sess_fresh (newSession p conn).1 p _ rfl).1
  obtain ⟨h1, h2, h3, h4⟩ := runHook_fields env.PostAccept (newSession p conn).1 p.heap.length
  have hveto := runHook_veto env.PostAccept (newSession p conn).1 p.heap.length
  rw [hs, hv] at hveto
  unfold ServeConn
  simp only [hudp, hhs]
  rcases hr : runHook env.PostAccept (newSession p conn).1 (newSession p conn).2 with ⟨p2, v⟩
  have hr2 : runHook env.PostAccept (newSession p conn).1 p.heap.length = (p2, v) := hr
  rw [hr2] at h1 h2 h3 h4 hveto
  simp only at h1 h2 h3 h4 hveto
  subst hveto
  have hn2 : (newSession p conn).2 = p.heap.length := rfl
  refine ⟨rfl, ?_, ?_, ?_⟩
  · simp [hubSet, startReadLoop, hn2]
  · simp [hubSet, startReadLoop, hn2]
  · show p2.heap.length = p.heap.length + 1
    rw [h4]
    simp [newSession]

/-- What the check of `ServeConn` does reject: every kind that contains `udp`. -/
theorem ServeConn_rejects_udp (env : Env) (p : peer) (conn : Conn)
    (h : stringsContains conn.network "udp" = true) :
    (ServeConn env p conn).1 = p ∧ (ServeConn env p conn).2.1 = none
      ∧ (ServeConn env p conn).2.2 ≠ none := by
  simp [ServeConn, h]

/-- The check of `ServeConn` on the kinds that the claim names. -/
theorem network_kinds_check :
    ["udp", "udp4", "udp6"].map (fun n => stringsContains n "udp") = [true, true, true]
      ∧ ["tcp", "tcp4", "tcp6", "unix", "unixpacket"].map (fun n => stringsContains n "udp")
          = [false, false, false, false, false]
      ∧ ["unixgram", "ip", "ip4", "ip6"].map (fun n => stringsContains n "udp")
          = [false, false, false, false] := by
  decide

/-! ## Close -/

theorem runTasks_no_pending (env : Env) (k : Nat) (st : CloseState) (h : st.pending = []) :
    runTasks env k st = st := by
  cases k with
  | zero => rfl
  | succ k => simp [runTasks, h]

theorem closeRange_sync_blocks (env : Env) (go : SessRef → Bool) (hgo : ∀ r, go r = false)
    (refs : List SessRef) (sched : List Nat) (st : CloseState) (hp : st.pending = [])
    (hle : st.errCh.length ≤ errChCap) (hlt : errChCap < st.errCh.length + refs.length) :
    (closeRange env go refs sched st).2 = true := by
  induction refs generalizing sched st with
  | nil => simp at hlt; omega
  | cons r rest ih =>
    rw [closeRange, runTasks_no_pending env _ st hp]
    simp only [hgo r, Bool.false_eq_true, if_false]
    by_cases hroom : st.errCh.length < errChCap
    · simp only [hroom, if_true]
      apply ih
      · exact hp
      · simp only [List.length_append, List.length_singleton]
        omega
      · simp only [List.length_append, List.length_singleton, List.length_cons] at hlt ⊢
        omega
    · simp only [hroom, if_false]

theorem closeCh_runTasks (env : Env) (k : Nat) (st : CloseState) :
    (runTasks env k st).p.closeCh = st.p.closeCh := by
  induction k generalizing st with
  | zero => rfl
  | succ k ih =>
    rw [runTasks]
    split
    · rfl
    · split
      · rw [ih]
        rfl
      · rfl

theorem closeCh_closeRange (env : Env) (go : SessRef → Bool) (refs : List SessRef)
    (sched : List Nat) (st : CloseState) :
    (closeRange env go refs sched st).1.p.closeCh = st.p.closeCh := by
  induction refs generalizing sched st with
  | nil => rfl
  | cons r rest ih =>
    rw [closeRange]
    simp only
    split
    · rw [ih]
      exact closeCh_runTasks env _ st
    · split
      · rw [ih]
        exact closeCh_runTasks env _ st
      · exact closeCh_runTasks env _ st

theorem closeCh_closeCollect (env : Env) (i : Nat) (sched : List Nat) (st : CloseState)
    (err : Option GoError) :
    (closeCollect env i sched st err).1.closeCh = st.p.closeCh := by
  induction i generalizing sched st err with
  | zero => rfl
  | succ i ih =>
    rw [closeCollect]
    simp only
    split
    · rw [ih]
      exact closeCh_runTasks env _ st
    · split
      · rw [ih]
        exact closeCh_runTasks env _ st
      · exact closeCh_runTasks env _ st

theorem closeCh_Close (env : Env) (p : peer) (go : SessRef → Bool) (sched : List Nat) :
    (Close env p go sched).1.closeCh = true := by
  unfold Close
  by_cases h : p.closeCh = true
  · simp [h]
  · simp only [h, Bool.false_eq_true, if_false]
    split
    · rename_i st hst
      have := closeCh_closeRange env go (p.sessHub.map (fun e => e.2)) sched
        { p := { p with closeCh := true, registered := false }, errCh := [], pending := [],
          count := 0 }
      rw [hst] at this
      exact this
    · rename_i st hst
      have := closeCh_closeRange env go (p.sessHub.map (fun e => e.2)) sched
        { p := { p with closeCh := true, registered := false }, errCh := [], pending := [],
          count := 0 }
      rw [hst] at this
      rw [closeCh_closeCollect]
      exact this

theorem closeRange_sync_ok (env : Env) (go : SessRef → Bool) (hgo : ∀ r, go r = false)
    (refs : List SessRef) (sched : List Nat) (st : CloseState) (hp : st.pending = [])
    (hroom : st.errCh.length + refs.length ≤ errChCap) :
    closeRange env go refs sched st
      = ({ p := refs.foldl (fun q r => (sessionClose env q r).1) st.p,
           errCh := st.errCh ++ refs.map env.sessCloseErr,
           pending := [],
           count := st.count + refs.length }, false) := by
  induction refs generalizing sched st with
  | nil =>
    cases st
    simp only at hp
    simp [closeRange, hp]
  | cons r rest ih =>
    rw [closeRange, runTasks_no_pending env _ st hp]
    simp only [List.length_cons] at hroom
    have hlt : st.errCh.length < errChCap := by omega
    simp only [hgo r, Bool.false_eq_true, if_false, hlt, if_true]
    rw [ih]
    · simp only [List.foldl_cons, List.map_cons, List.append_assoc, List.singleton_append,
        List.length_cons, sessionClose]
      congr 2
      omega
    · exact hp
    · simp only [List.length_append, List.length_singleton]
      omega

theorem closeCollect_buffered (env : Env) (sched : List Nat) (st : CloseState)
    (err : Option GoError) (hp : st.pending = []) :
    closeCollect env st.errCh.length sched st err
      = (st.p, CloseOutcome.returned (st.errCh.foldl env.Merge err)) := by
  obtain ⟨q, buf, pending, count⟩ := st
  simp only at hp
  subst hp
  induction buf generalizing sched err with
  | nil => rfl
  | cons e buf ih =>
    simp only [List.length_cons, closeCollect, runTasks_no_pending, List.foldl_cons]
    exact ih _ _

theorem closeLog_foldl_sessionClose (env : Env) (refs : List SessRef) (p : peer) :
    (refs.foldl (fun q r => (sessionClose env q r).1) p).closeLog = p.closeLog ++ refs := by
  induction refs generalizing p with
  | nil => simp
  | cons r rest ih =>
    rw [List.foldl_cons, ih]
    simp [sessionClose]

/-- When the hub holds at most ten sessions and `Go` fails for all of them, `Close`
returns: every session of the hub has been closed, once and in hub order, and the
returned error merges their close results in that order. -/
theorem Close_returns_on_sync_fallback (env : Env) (p : peer) (go : SessRef → Bool)
    (sched : List Nat) (hopen : p.closeCh = false) (hgo : ∀ r, go r = false)
    (hn : p.sessHub.length ≤ errChCap) :
    (Close env p go sched).2
        = CloseOutcome.returned
            (((p.sessHub.map (fun e => e.2)).map env.sessCloseErr).foldl env.Merge none)
      ∧ (Close env p go sched).1.closeLog = p.closeLog ++ p.sessHub.map (fun e => e.2) := by
  unfold Close
  simp only [hopen, Bool.false_eq_true, if_false]
  rw [closeRange_sync_ok env go hgo _ sched _ rfl (by simpa using hn)]
  simp only [List.nil_append, Nat.zero_add]
  have hlen : (p.sessHub.map (fun e => e.2)).length
      = ((p.sessHub.map (fun e => e.2)).map env.sessCloseErr).length := by simp
  have := closeCollect_buffered env (List.drop (p.sessHub.map (fun e => e.2)).length sched)
    { p := (p.sessHub.map (fun e => e.2)).foldl (fun q r => (sessionClose env q r).1)
        { p with closeCh := true, registered := false },
      errCh := (p.sessHub.map (fun e => e.2)).map env.sessCloseErr,
      pending := [],
      count := (p.sessHub.map (fun e => e.2)).length } none rfl
  simp only at this
  rw [← hlen] at this
  rw [this]
  exact ⟨rfl, closeLog_foldl_sessionClose env _ _⟩

/-- C5 (the code at the inputs where it departs from the claim): when the hub
holds more sessions than `errCh` has room for and `Go` fails for all of them,
`Close` does not return: the synchronous fallback fills the buffer and its next
send waits for ever. -/
theorem Close_blocks_on_sync_fallback (env : Env) (p : peer) (go : SessRef → Bool)
    (sched : List Nat) (hopen : p.closeCh = false) (hgo : ∀ r, go r = false)
    (hn : errChCap < p.sessHub.length) :
    (Close env p go sched).2 = CloseOutcome.blocked := by
  unfold Close
  simp only [hopen, Bool.false_eq_true, if_false]
  have := closeRange_sync_blocks env go hgo (p.sessHub.map (fun e => e.2)) sched
    { p := { p with closeCh := true, registered := false }, errCh := [], pending := [],
      count := 0 } rfl (by simp) (by simpa using hn)
  rcases hr : closeRange env go (p.sessHub.map (fun e => e.2)) sched
    { p := { p with closeCh := true, registered := false }, errCh := [], pending := [],
      count := 0 } with ⟨st, b⟩
  rw [hr] at this
  simp only at this
  subst this
  rw [hr]

/-- C6, as the code has it: a `Close` that follows a first `Close` changes nothing
(the peer, its sessions and its hub stay as the first call left them) and returns
a non-nil error, the recovered panic of closing `closeCh` again. -/
theorem Close_twice (env : Env) (p : peer) (go go2 : SessRef → Bool) (sched sched2 : List Nat) :
    Close env (Close env p go sched).1 go2 sched2
      = ((Close env p go sched).1,
         CloseOutcome.returned
          (some (GoError.msg ("panic:\n" ++ "close of closed channel" ++ "\n" ++ env.PanicTrace)))) := by
  have h := closeCh_Close env p go sched
  generalize (Close env p go sched).1 = q at h
  simp [Close, h]

/-! ## The theorems at concrete inputs -/

theorem redial_short_circuit_witness :
    connB ≠ (clientPeer.sess 0).conn
      ∧ redialForClientLocked exampleEnv clientPeer 0 flakyDial connB = (clientPeer, true) :=
  ⟨by decide, (redial_short_circuit exampleEnv clientPeer 0 flakyDial connB (by decide)).1⟩

theorem redial_bounded_witness :
    attemptErr exampleEnv 0 flakyDial 0 clientPeer ≠ none
      ∧ attemptErr exampleEnv 0 flakyDial 1 clientPeer = none
      ∧ redialForClientLocked exampleEnv clientPeer 0 flakyDial (clientPeer.sess 0).conn
          = (afterAttempts exampleEnv 0 flakyDial 2 clientPeer, true)
      ∧ (redialForClientLocked exampleEnv clientPeer 0 flakyDial (clientPeer.sess 0).conn).1.dialCalls
          = clientPeer.dialCalls + 2 :=
  ⟨by decide, by decide,
    (redial_bounded exampleEnv clientPeer 0 flakyDial).2.2 2 (by decide) (by decide)
      (by decide) (by decide)⟩

theorem accept_backoff_witness :
    listenStart.tempDelay = 0
      ∧ (∀ ev ∈ [tempAcceptError, tempAcceptError, tempAcceptError], ev.isRetry = true)
      ∧ listenLoop ([tempAcceptError, tempAcceptError, tempAcceptError] ++ []) listenStart
          = listenLoop []
              { listenStart with
                tempDelay := backoffDelay 3,
                sleeps := listenStart.sleeps
                  ++ (List.range 3).map (fun j => backoffDelay (j + 1)) }
      ∧ (listenLoop [tempAcceptError, tempAcceptError, tempAcceptError] listenStart).1.sleeps
          = [5000000, 10000000, 20000000] :=
  ⟨rfl, by decide,
    accept_backoff.1 [tempAcceptError, tempAcceptError, tempAcceptError] [] listenStart rfl
      (by decide),
    by decide⟩

theorem plugin_veto_example :
    hubWf clientPeer
      ∧ vetoedDial clientPeer.dialCalls = Except.ok connVetoed
      ∧ (exampleEnv.PostDial (dialedSession clientPeer connVetoed)).veto = some authFail
      ∧ (newSessionForClient exampleEnv clientPeer vetoedDial).2 = (none, some authFail)
      ∧ (newSessionForClient exampleEnv clientPeer vetoedDial).1.sessHub = clientPeer.sessHub
      ∧ (newSessionForClient exampleEnv clientPeer vetoedDial).1.readLoops = clientPeer.readLoops
      ∧ (ServeConn exampleEnv clientPeer connVetoed).2 = (none, some authFail.ToError)
      ∧ (ServeConn exampleEnv clientPeer connVetoed).1.sessHub = clientPeer.sessHub
      ∧ (acceptHandler exampleEnv clientPeer connVetoed).sessHub = clientPeer.sessHub :=
  ⟨by decide, rfl, by decide,
    ((plugin_veto exampleEnv clientPeer authFail (by decide)).1 vetoedDial connVetoed rfl
      (by decide)).1,
    ((plugin_veto exampleEnv clientPeer authFail (by decide)).1 vetoedDial connVetoed rfl
      (by decide)).2.1,
    ((plugin_veto exampleEnv clientPeer authFail (by decide)).1 vetoedDial connVetoed rfl
      (by decide)).2.2.1,
    ((plugin_veto exampleEnv clientPeer authFail (by decide)).2.1 connVetoed (by decide)
      (by decide) (by decide)).1,
    ((plugin_veto exampleEnv clientPeer authFail (by decide)).2.1 connVetoed (by decide)
      (by decide) (by decide)).2.1,
    ((plugin_veto exampleEnv clientPeer authFail (by decide)).2.2 connVetoed (by decide)
      (by decide)).1⟩

theorem Dial_veto_returns_typed_nil_witness :
    hubWf clientPeer
      ∧ vetoedDial clientPeer.dialCalls = Except.ok connVetoed
      ∧ (exampleEnv.PostDial (dialedSession clientPeer connVetoed)).veto = some authFail
      ∧ (Dial exampleEnv clientPeer vetoedDial).2 = (Session.ptr none, some authFail)
      ∧ (Dial exampleEnv clientPeer vetoedDial).2.1 ≠ Session.nil
      ∧ (Dial exampleEnv clientPeer vetoedDial).1.sessHub = clientPeer.sessHub :=
  ⟨by decide, rfl, by decide,
    (Dial_veto_returns_typed_nil exampleEnv clientPeer authFail vetoedDial connVetoed
      (by decide) rfl (by decide)).1,
    (Dial_veto_returns_typed_nil exampleEnv clientPeer authFail vetoedDial connVetoed
      (by decide) rfl (by decide)).2.1,
    (Dial_veto_returns_typed_nil exampleEnv clientPeer authFail vetoedDial connVetoed
      (by decide) rfl (by decide)).2.2.2.2.2.1⟩

theorem listen_accept_error_witness :
    serverPeer.listenAddr.length ≠ 0
      ∧ (∀ x ∈ [goodAccept, tempAcceptError], x.keepsListening = true)
      ∧ Listen serverPeer (Except.ok ())
            ([goodAccept, tempAcceptError]
              ++ { tempAcceptError with closed := true } :: [fatalAcceptError])
          = ((Listen serverPeer (Except.ok ()) [goodAccept, tempAcceptError]).1,
             ListenOutcome.returned ErrListenClosed)
      ∧ (Listen serverPeer (Except.ok ()) ([goodAccept, tempAcceptError] ++ [tempAcceptError])).2
          = ListenOutcome.accepting
      ∧ Listen serverPeer (Except.ok ())
            ([goodAccept, tempAcceptError] ++ fatalAcceptError :: [goodAccept])
          = ((Listen serverPeer (Except.ok ()) [goodAccept, tempAcceptError]).1,
             ListenOutcome.returned (GoError.net "accept: invalid argument" false))
      ∧ (Listen serverPeer (Except.ok ()) [goodAccept, tempAcceptError]).1.sleeps = [5000000] :=
  ⟨by decide, by decide,
    ((listen_accept_error serverPeer [goodAccept, tempAcceptError] [fatalAcceptError]
      { tempAcceptError with closed := true }
      (GoError.net "accept: too many open files" true) (by decide) (by decide) rfl).1 rfl).1,
    ((listen_accept_error serverPeer [goodAccept, tempAcceptError] [] tempAcceptError
      (GoError.net "accept: too many open files" true) (by decide) (by decide) rfl).2.1
      rfl rfl).1,
    (listen_accept_error serverPeer [goodAccept, tempAcceptError] [goodAccept] fatalAcceptError
      (GoError.net "accept: invalid argument" false) (by decide) (by decide) rfl).2.2 rfl rfl,
    by decide⟩

theorem Close_blocks_on_sync_fallback_witness :
    crowdedPeer.closeCh = false
      ∧ errChCap < crowdedPeer.sessHub.length
      ∧ (Close exampleEnv crowdedPeer (fun _ => false) []).2 = CloseOutcome.blocked :=
  ⟨rfl, by decide,
    Close_blocks_on_sync_fallback exampleEnv crowdedPeer (fun _ => false) [] rfl
      (fun _ => rfl) (by decide)⟩

/-- C6 fails as stated: on the client peer the first `Close` returns nil, and the
second `Close` returns a non-nil error. -/
theorem Close_second_call_errors :
    (Close exampleEnv clientPeer (fun _ => true) []).2 = CloseOutcome.returned none
      ∧ (Close exampleEnv (Close exampleEnv clientPeer (fun _ => true) []).1
            (fun _ => true) []).2
          = CloseOutcome.returned (some (GoError.msg "panic:\nclose of closed channel\n"))
      ∧ (Close exampleEnv (Close exampleEnv clientPeer (fun _ => true) []).1
            (fun _ => true) []).2
          ≠ CloseOutcome.returned none := by
  decide

theorem renew_preserves_id_witness :
    0 < namedPeer.heap.length
      ∧ steadyDial namedPeer.dialCalls = Except.ok connB
      ∧ (namedPeer.sess 0).Id ≠ (namedPeer.sess 0).LocalIp
      ∧ (renewSwap (namedPeer.sess 0) (if namedPeer.tlsConfig then tlsClient connB else connB)).Id
          = (namedPeer.sess 0).Id
      ∧ ((renewSessionForClient exampleEnv namedPeer 0 steadyDial).1.sess 0).Id = "user-7"
      ∧ ((renewSessionForClient exampleEnv clientPeer 0 steadyDial).1.sess 0).Id
          = "127.0.0.1:50002" :=
  ⟨by decide, rfl, by decide,
    (renew_preserves_id exampleEnv namedPeer 0 steadyDial connB (by decide) rfl).1 (by decide),
    by decide, by decide⟩

theorem listenLoop_accept_error_example :
    tempAcceptError.result = Except.error (GoError.net "accept: too many open files" true)
      ∧ listenLoop [{ tempAcceptError with closed := true }, tempAcceptError] listenStart
          = (listenStart, ListenOutcome.returned ErrListenClosed) :=
  ⟨rfl,
    (listenLoop_accept_error { tempAcceptError with closed := true } [tempAcceptError]
      listenStart (GoError.net "accept: too many open files" true) rfl).1 rfl⟩

theorem ServeConn_admits_connectionless_witness :
    connUnixgram.network = "unixgram"
      ∧ handshakeFails connUnixgram = none
      ∧ (exampleEnv.PostAccept (acceptedSession connUnixgram)).veto = none
      ∧ (ServeConn exampleEnv clientPeer connUnixgram).2 = (some 1, none)
      ∧ 1 ∈ (ServeConn exampleEnv clientPeer connUnixgram).1.sessHub.map (fun e => e.2) :=
  ⟨rfl, by decide, by decide,
    (ServeConn_admits_connectionless exampleEnv clientPeer connUnixgram (Or.inl rfl)
      (by decide) (by decide)).1,
    (ServeConn_admits_connectionless exampleEnv clientPeer connUnixgram (Or.inl rfl)
      (by decide) (by decide)).2.1⟩

end Teleport
